import Mathlib

/-!
Verification of the `xml2html` repository (module `mrbavii_xml2html.py`).

The Python code is shallowly embedded: Python strings are `List Char`,
Python `None`-able values are `Option`, a Python function that can raise
an exception returns `Except Unit`.  Each definition mirrors one piece of
the source; theorems check the specification's claims against it.
-/

namespace Xml2Html

/-! ### XmlWrapper.__init__ : qualified-tag splitting

Python source (`mrbavii_xml2html.py`, lines 34-47):
```
tag = node.tag
if tag[0] == "{":
    end = tag.find("}")
    if end < 0:
        pass # TODO: error
    ns = tag[1:end]
    tag = tag[end + 1:]
else:
    ns = ""
self._ns = ns
self._tagname = tag
```
-/

/-- Model of Python `tag.find("}")`: index of the first `'}'`, `none` for
Python's `-1`. -/
def findBrace : List Char → Option Nat
  | [] => none
  | c :: rest => if c = '}' then some 0 else (findBrace rest).map (· + 1)

/-- Model of the tag-splitting in `XmlWrapper.__init__`.  Returns
`some (namespace, localName)`; `none` models the `IndexError` Python raises
on an empty tag (`tag[0]`).  When `find` returns `-1`, Python computes
`tag[1:-1]` (drop first and last characters) and `tag[0:]` (the whole tag),
which is what the `none` branch of the inner match reproduces. -/
def tagSplit : List Char → Option (List Char × List Char)
  | [] => none
  | c :: rest =>
    if c = '{' then
      match findBrace (c :: rest) with
      | some e => some (rest.take (e - 1), rest.drop e)
      | none => some (rest.dropLast, c :: rest)
    else some ([], c :: rest)

theorem findBrace_append_of_not_mem (ns loc : List Char) (h : '}' ∉ ns) :
    findBrace (ns ++ '}' :: loc) = some ns.length := by
  induction ns with
  | nil => simp [findBrace]
  | cons c rest ih =>
    have hc : c ≠ '}' := fun hc => h (hc ▸ List.mem_cons_self c rest)
    have hrest : '}' ∉ rest := fun hm => h (List.mem_cons_of_mem c hm)
    simp [findBrace, hc, ih hrest]

theorem findBrace_eq_none (l : List Char) (h : '}' ∉ l) :
    findBrace l = none := by
  induction l with
  | nil => rfl
  | cons c rest ih =>
    have hc : c ≠ '}' := fun hc => h (hc ▸ List.mem_cons_self c rest)
    have hrest : '}' ∉ rest := fun hm => h (List.mem_cons_of_mem c hm)
    simp [findBrace, hc, ih hrest]

/-- C4: for a tag beginning with `'{'` the wrapper takes namespace = the text
between the opening `'{'` and the first `'}'` and localName = the text after
that `'}'`; for a (nonempty) tag not beginning with `'{'` the namespace is
empty and the local name is the whole tag. -/
theorem tagSplit_spec :
    (∀ ns loc : List Char, '}' ∉ ns →
      tagSplit ('{' :: ns ++ '}' :: loc) = some (ns, loc)) ∧
    (∀ tag : List Char, tag ≠ [] → tag.head? ≠ some '{' →
      tagSplit tag = some ([], tag)) := by
  constructor
  · intro ns loc h
    have hfb : findBrace ('{' :: (ns ++ '}' :: loc)) = some (ns.length + 1) := by
      simp [findBrace, findBrace_append_of_not_mem ns loc h]
    show tagSplit ('{' :: (ns ++ '}' :: loc)) = some (ns, loc)
    have htake : (ns ++ '}' :: loc).take (ns.length + 1 - 1) = ns := by
      simp
    have hdrop : (ns ++ '}' :: loc).drop (ns.length + 1) = loc := by
      rw [List.drop_append_eq_append_drop]
      simp
    simp only [tagSplit, if_pos rfl, hfb, htake, hdrop]
    simp
  · intro tag htag hhd
    match tag, htag with
    | c :: rest, _ =>
      have hc : c ≠ '{' := by
        intro h
        exact hhd (by simp [h])
      simp [tagSplit, hc]

theorem tagSplit_spec_witness :
    ('}' ∉ ['u','r','n'] ∧
      tagSplit ('{' :: ['u','r','n'] ++ '}' :: ['f','o','o']) =
        some (['u','r','n'], ['f','o','o'])) ∧
    (['f','o','o'] ≠ ([] : List Char) ∧ ['f','o','o'].head? ≠ some '{' ∧
      tagSplit ['f','o','o'] = some ([], ['f','o','o'])) :=
  ⟨⟨by decide, tagSplit_spec.1 ['u','r','n'] ['f','o','o'] (by decide)⟩,
   ⟨by decide, by decide, tagSplit_spec.2 ['f','o','o'] (by decide) (by decide)⟩⟩

/-- C10: for a tag beginning with `'{'` but containing no `'}'`, the wrapper
raises no error; the namespace is the tag with its first and last characters
removed (Python `tag[1:-1]` with the failed `find` giving `-1`), and the
local name is the entire unmodified tag (Python `tag[0:]`). -/
theorem tagSplit_unclosed_brace (rest : List Char)
    (h : '}' ∉ '{' :: rest) :
    tagSplit ('{' :: rest) = some (rest.dropLast, '{' :: rest) := by
  simp [tagSplit, findBrace_eq_none ('{' :: rest) h]

theorem tagSplit_unclosed_brace_witness :
    '}' ∉ ['{','a','b','c'] ∧
      tagSplit ['{','a','b','c'] = some (['a','b'], ['{','a','b','c']) :=
  ⟨by decide, tagSplit_unclosed_brace ['a','b','c'] (by decide)⟩

/-! ### Python string helpers used by `State` and the CLI glue -/

/-- Model of Python `str.strip()`: drop leading and trailing whitespace. -/
def pyStrip (l : List Char) : List Char :=
  ((l.dropWhile Char.isWhitespace).reverse.dropWhile Char.isWhitespace).reverse

/-- Value of a digit string (digits already validated). -/
def digitsVal (l : List Char) : Nat :=
  l.foldl (fun acc c => acc * 10 + (c.toNat - 48)) 0

/-- Model of Python `int(s)` on a string: strips whitespace, accepts an
optional sign followed by one or more digits; `none` models the `ValueError`
raised on anything else. -/
def pyInt (t : List Char) : Option Int :=
  match pyStrip t with
  | [] => none
  | '+' :: ds =>
    if ds ≠ [] ∧ ds.all Char.isDigit then some (digitsVal ds) else none
  | '-' :: ds =>
    if ds ≠ [] ∧ ds.all Char.isDigit then some (-(digitsVal ds : Int)) else none
  | ds =>
    if ds.all Char.isDigit then some (digitsVal ds) else none

/-- Helper for `pySplit`: accumulates the current word (reversed). -/
def splitWSAux : List Char → List Char → List (List Char)
  | [], acc => if acc = [] then [] else [acc.reverse]
  | c :: rest, acc =>
    if c.isWhitespace then
      if acc = [] then splitWSAux rest [] else acc.reverse :: splitWSAux rest []
    else splitWSAux rest (c :: acc)

/-- Model of Python `str.split()` with no arguments: split on whitespace
runs, dropping empty words. -/
def pySplit (l : List Char) : List (List Char) := splitWSAux l []

/-- A Python `set` of strings is modelled as a duplicate-free list; `pyInsert`
models `set.add`. -/
def pyInsert (s : List (List Char)) (x : List Char) : List (List Char) :=
  if x ∈ s then s else s ++ [x]

/-- Model of Python `set(l)` for a list of strings. -/
def pySet (l : List (List Char)) : List (List Char) := l.foldl pyInsert []

/-- Model of Python `set.update(l)`. -/
def pyUpdate (s : List (List Char)) (l : List (List Char)) : List (List Char) :=
  l.foldl pyInsert s

theorem mem_pyInsert (s : List (List Char)) (x y : List Char) :
    y ∈ pyInsert s x ↔ y ∈ s ∨ y = x := by
  unfold pyInsert
  by_cases h : x ∈ s
  · simp only [if_pos h]
    constructor
    · exact Or.inl
    · rintro (hy | rfl)
      · exact hy
      · exact h
  · simp [if_neg h]

theorem mem_pyUpdate (s l : List (List Char)) (y : List Char) :
    y ∈ pyUpdate s l ↔ y ∈ s ∨ y ∈ l := by
  induction l generalizing s with
  | nil => simp [pyUpdate]
  | cons a rest ih =>
    show y ∈ pyUpdate (pyInsert s a) rest ↔ _
    rw [ih, mem_pyInsert]
    simp only [List.mem_cons]
    tauto

theorem mem_pySet (l : List (List Char)) (y : List Char) :
    y ∈ pySet l ↔ y ∈ l :=
  (mem_pyUpdate [] l y).trans (by simp)

theorem nodup_pyInsert (s : List (List Char)) (x : List Char)
    (h : s.Nodup) : (pyInsert s x).Nodup := by
  unfold pyInsert
  by_cases hx : x ∈ s
  · simpa [if_pos hx]
  · simp [if_neg hx, List.nodup_append, h, hx]

theorem nodup_pyUpdate (s l : List (List Char)) (h : s.Nodup) :
    (pyUpdate s l).Nodup := by
  induction l generalizing s with
  | nil => exact h
  | cons a rest ih => exact ih (pyInsert s a) (nodup_pyInsert s a h)

/-! ### The `State` class (Metadata Index)

Python source (`mrbavii_xml2html.py`, lines 135-212).  `root.find(xpath)` is
an external collaborator (ElementTree) and is modelled as an oracle function
on the document; an element exposes `text` (`None`-able string) and the
concatenation of `itertext()`. -/

/-- A matched element, as observed by `State.decode`. -/
structure Elem where
  text : Option (List Char)
  itertext : List Char
deriving DecidableEq

/-- A parsed document root: `find` models `root.find(xpath)`. -/
structure Doc where
  find : List Char → Option Elem

/-- The six node-path queries handed to `State.__init__` (each an
argparse-produced `None`-able string). -/
structure Config where
  xpyear : Option (List Char)
  xpmonth : Option (List Char)
  xpday : Option (List Char)
  xptitle : Option (List Char)
  xptags : Option (List Char)
  xpsummary : Option (List Char)
deriving DecidableEq

/-- The dict appended to `self._states` by `State.decode`. -/
structure MetaRecord where
  relpath : List Char
  year : Int
  month : Int
  day : Int
  title : List Char
  tags : List (List Char)
  summary : Option Elem
deriving DecidableEq

/-- The mutable state of a `State` instance. -/
structure State where
  cfg : Config
  states : List MetaRecord
  tags : List (List Char)
deriving DecidableEq

/-- Model of `State.__init__`: empty record list, empty tag set. -/
def State.init (cfg : Config) : State := ⟨cfg, [], []⟩

/-- Python truthiness guard `if self._xpX:` followed by `root.find`:
`none` when the query is unset or empty, or when `find` matches nothing. -/
def findField (q : Option (List Char)) (root : Doc) : Option Elem :=
  match q with
  | none => none
  | some s => if s = [] then none else root.find s

/-- One numeric field of `State.decode`:
`year = int(el.text) if el.text else 0` guarded by the query and the match;
`.error ()` models the `ValueError` raised by `int` on invalid text. -/
def numField (q : Option (List Char)) (root : Doc) : Except Unit Int :=
  match findField q root with
  | none => .ok 0
  | some el =>
    match el.text with
    | none => .ok 0
    | some t =>
      if t = [] then .ok 0
      else
        match pyInt t with
        | some n => .ok n
        | none => .error ()

/-- The title field: `"".join(el.itertext())` when the query matched. -/
def titleField (q : Option (List Char)) (root : Doc) : Option (List Char) :=
  (findField q root).map (·.itertext)

/-- The tags field: `set(el.text.split() if el.text else [])`. -/
def tagsField (q : Option (List Char)) (root : Doc) : List (List Char) :=
  match findField q root with
  | none => []
  | some el =>
    match el.text with
    | none => []
    | some t => if t = [] then [] else pySet (pySplit t)

/-- The summary field: the matched element (wrapped by `XmlWrapper`). -/
def summaryField (q : Option (List Char)) (root : Doc) : Option Elem :=
  findField q root

/-- Model of `State.decode(root, relpath)`.  Mirrors the source order:
extract year/month/day (each may raise), then title, tags (added to the
cumulative tag set unconditionally), summary; then the retention check
`if year == 0 or month == 0 or day == 0 or title is None: return`, else
append the record dict. -/
def State.decode (st : State) (root : Doc) (relpath : List Char) :
    Except Unit State :=
  match numField st.cfg.xpyear root, numField st.cfg.xpmonth root,
      numField st.cfg.xpday root with
  | .ok year, .ok month, .ok day =>
    let title := titleField st.cfg.xptitle root
    let tags := tagsField st.cfg.xptags root
    let newTags := pyUpdate st.tags tags
    let summary := summaryField st.cfg.xpsummary root
    if year = 0 ∨ month = 0 ∨ day = 0 ∨ title = none then
      .ok { st with tags := newTags }
    else
      .ok { st with
              tags := newTags,
              states := st.states ++
                [{ relpath := relpath, year := year, month := month,
                   day := day, title := title.getD [], tags := tags,
                   summary := summary }] }
  | _, _, _ => .error ()

/-- The record `State.decode` retains for a document (meaningful whenever the
retention condition holds). -/
def recordOf (cfg : Config) (root : Doc) (relpath : List Char) : MetaRecord :=
  { relpath := relpath
    year := ((numField cfg.xpyear root).toOption).getD 0
    month := ((numField cfg.xpmonth root).toOption).getD 0
    day := ((numField cfg.xpday root).toOption).getD 0
    title := (titleField cfg.xptitle root).getD []
    tags := tagsField cfg.xptags root
    summary := summaryField cfg.xpsummary root }

/-- The retention condition of `State.decode`: all three date fields extract
without error to non-zero values and a title element was found. -/
def retainedB (cfg : Config) (root : Doc) : Bool :=
  match numField cfg.xpyear root, numField cfg.xpmonth root,
      numField cfg.xpday root with
  | .ok y, .ok m, .ok d =>
    !(decide (y = 0) || decide (m = 0) || decide (d = 0) ||
      decide (titleField cfg.xptitle root = none))
  | _, _, _ => false

/-- Descending (year, month, day) order used by `State.get`
(`reverse=True` over the ascending lexicographic key). -/
def keyGE (a b : MetaRecord) : Prop :=
  b.year < a.year ∨ (b.year = a.year ∧
    (b.month < a.month ∨ (b.month = a.month ∧ b.day ≤ a.day)))

instance : DecidableRel keyGE := fun a b =>
  inferInstanceAs (Decidable (b.year < a.year ∨ (b.year = a.year ∧
    (b.month < a.month ∨ (b.month = a.month ∧ b.day ≤ a.day)))))

instance : IsTotal MetaRecord keyGE :=
  ⟨by intro a b; unfold keyGE; omega⟩

instance : IsTrans MetaRecord keyGE :=
  ⟨by intro a b c; unfold keyGE; omega⟩

/-- Model of `State.get`:
`sorted(self._states, key=itemgetter("year","month","day"), reverse=True)`.
Python's `sorted` is stable and `reverse=True` sorts descending while keeping
equal keys in input order; a stable descending sort is embedded as insertion
sort with the reflexive descending relation `keyGE`. -/
def State.get (st : State) : List MetaRecord :=
  st.states.insertionSort keyGE

/-- Model of `State.tags`: `sorted(self._tags)`, ascending lexicographic
string order. -/
def State.tagsSorted (st : State) : List (List Char) :=
  st.tags.insertionSort (· ≤ ·)

/-- The scan loop of `Scan.run`: decode each input in order. -/
def scanDocs (st : State) : List (Doc × List Char) → Except Unit State
  | [] => .ok st
  | (root, rp) :: rest =>
    match st.decode root rp with
    | .ok st' => scanDocs st' rest
    | .error e => .error e

/-! ### Claim C1: `State.get` sorts descending with stable ties -/

theorem pairwise_filter_of_forall {α : Type} (p : α → Bool) (R : α → α → Prop)
    (h : ∀ x y, p x = true → p y = true → R x y) (l : List α) :
    (l.filter p).Pairwise R := by
  induction l with
  | nil => simp
  | cons a l ih =>
    by_cases ha : p a = true
    · rw [List.filter_cons_of_pos ha]
      exact List.Pairwise.cons (fun b hb => h a b ha (List.of_mem_filter hb)) ih
    · rw [List.filter_cons_of_neg (by simpa using ha)]
      exact ih

/-- The sort key of `State.get`: `itemgetter("year", "month", "day")`. -/
def keyOf (r : MetaRecord) : Int × Int × Int := (r.year, r.month, r.day)

theorem keyGE_of_keyOf_eq {x y : MetaRecord} (h : keyOf x = keyOf y) :
    keyGE x y := by
  unfold keyOf at h
  simp only [Prod.mk.injEq] at h
  unfold keyGE
  omega

/-- Record (2020, 1, 1, "A") of the spec's stability example. -/
def recA : MetaRecord := ⟨['a'], 2020, 1, 1, ['A'], [], none⟩

/-- Record (2020, 1, 1, "B") of the spec's stability example. -/
def recB : MetaRecord := ⟨['b'], 2020, 1, 1, ['B'], [], none⟩

/-- Record (2021, 1, 1, "C") of the spec's stability example. -/
def recC : MetaRecord := ⟨['c'], 2021, 1, 1, ['C'], [], none⟩

/-- The empty query configuration (all six queries unset). -/
def cfgNone : Config := ⟨none, none, none, none, none, none⟩

/-- C1: `State.get` returns the retained records sorted by the key
(year, month, day) in descending order (`keyGE` between consecutive
elements), as a permutation of the stored records, and stably: for every
key value, the records with that key appear in their original insertion
order; in particular records (2020,1,1,"A"), (2020,1,1,"B"), (2021,1,1,"C")
inserted in that order yield `get() = [C, A, B]`. -/
theorem get_sorted_descending_stable :
    (∀ st : State, List.Sorted keyGE st.get) ∧
    (∀ st : State, st.get.Perm st.states) ∧
    (∀ (st : State) (k : Int × Int × Int),
      st.get.filter (fun r => decide (keyOf r = k)) =
        st.states.filter (fun r => decide (keyOf r = k))) ∧
    (State.mk cfgNone [recA, recB, recC] []).get = [recC, recA, recB] := by
  refine ⟨fun st => List.sorted_insertionSort keyGE st.states,
    fun st => List.perm_insertionSort keyGE st.states, fun st k => ?_, by decide⟩
  set p : MetaRecord → Bool := fun r => decide (keyOf r = k) with hp
  have hpair : (st.states.filter p).Pairwise keyGE := by
    apply pairwise_filter_of_forall
    intro x y hx hy
    have hx' : keyOf x = k := of_decide_eq_true hx
    have hy' : keyOf y = k := of_decide_eq_true hy
    exact keyGE_of_keyOf_eq (hx'.trans hy'.symm)
  have hsub : List.Sublist (st.states.filter p) (State.get st) :=
    List.sublist_insertionSort hpair (List.filter_sublist st.states)
  have hsub2 := hsub.filter p
  have hidem : (st.states.filter p).filter p = st.states.filter p := by
    rw [List.filter_filter]
    apply List.filter_congr
    intro a _
    exact Bool.and_self (p a)
  rw [hidem] at hsub2
  have hlen : (st.states.filter p).length = ((State.get st).filter p).length :=
    ((List.perm_insertionSort keyGE st.states).filter p).length_eq.symm
  exact (hsub2.eq_of_length hlen).symm

/-! ### Claim C2: decode appends iff the retention condition holds -/

/-- C2: whenever `State.decode` completes (no exception), it appends exactly
the document's metadata record to `_states` when the extracted year, month
and day are all non-zero and a title element was found, and otherwise leaves
`_states` unchanged (silent discard, still no exception). -/
theorem decode_append_iff (st : State) (root : Doc) (rp : List Char)
    (st' : State) (h : st.decode root rp = .ok st') :
    (st'.states = st.states ++ [recordOf st.cfg root rp] ↔
      retainedB st.cfg root = true) ∧
    (retainedB st.cfg root = false → st'.states = st.states) := by
  cases hy : numField st.cfg.xpyear root with
  | error e => simp only [State.decode, hy] at h; exact Except.noConfusion h
  | ok year =>
  cases hm : numField st.cfg.xpmonth root with
  | error e => simp only [State.decode, hy, hm] at h; exact Except.noConfusion h
  | ok month =>
  cases hd : numField st.cfg.xpday root with
  | error e => simp only [State.decode, hy, hm, hd] at h; exact Except.noConfusion h
  | ok day =>
  simp only [State.decode, hy, hm, hd] at h
  by_cases hc : year = 0 ∨ month = 0 ∨ day = 0 ∨
      titleField st.cfg.xptitle root = none
  · rw [if_pos hc] at h
    have hst : st' = { st with tags := pyUpdate st.tags (tagsField st.cfg.xptags root) } := by
      cases h; rfl
    have hr : retainedB st.cfg root = false := by
      simp only [retainedB, hy, hm, hd, Bool.not_eq_false', Bool.or_eq_true,
        decide_eq_true_eq]
      tauto
    constructor
    · rw [hst, hr]
      simp
    · intro _
      rw [hst]
  · rw [if_neg hc] at h
    have hrec : recordOf st.cfg root rp =
        { relpath := rp, year := year, month := month, day := day,
          title := (titleField st.cfg.xptitle root).getD [],
          tags := tagsField st.cfg.xptags root,
          summary := summaryField st.cfg.xpsummary root } := by
      simp [recordOf, hy, hm, hd, Except.toOption]
    have hr : retainedB st.cfg root = true := by
      simp only [retainedB, hy, hm, hd, Bool.not_eq_true', Bool.or_eq_false_iff,
        decide_eq_false_iff_not]
      tauto
    have hst : st'.states = st.states ++ [recordOf st.cfg root rp] := by
      cases h
      rw [hrec]
    exact ⟨by rw [hst, hr]; simp, fun hfalse => by rw [hr] at hfalse; cases hfalse⟩

/-- A concrete document whose year/month/day/title queries all match. -/
def doc2 : Doc :=
  ⟨fun q =>
    if q = ['y'] then some ⟨some ['2','0','2','0'], []⟩
    else if q = ['m'] then some ⟨some ['1'], []⟩
    else if q = ['d'] then some ⟨some ['2'], []⟩
    else if q = ['t'] then some ⟨none, ['T']⟩
    else none⟩

/-- Configuration querying year at `y`, month at `m`, day at `d`, title at
`t`. -/
def cfg2 : Config := ⟨some ['y'], some ['m'], some ['d'], some ['t'], none, none⟩

theorem decode_append_iff_witness :
    ((State.mk cfg2 [⟨['p'], 2020, 1, 2, ['T'], [], none⟩] []).states =
        (State.init cfg2).states ++ [recordOf cfg2 doc2 ['p']] ↔
      retainedB cfg2 doc2 = true) ∧
    (retainedB cfg2 doc2 = false →
      (State.mk cfg2 [⟨['p'], 2020, 1, 2, ['T'], [], none⟩] []).states =
        (State.init cfg2).states) :=
  decode_append_iff (State.init cfg2) doc2 ['p']
    (State.mk cfg2 [⟨['p'], 2020, 1, 2, ['T'], [], none⟩] []) (by rfl)

/-! ### Claim C5: field extraction defaults (corrected) -/

/-- A document whose year query matches an element with non-numeric text. -/
def doc5 : Doc :=
  ⟨fun q => if q = ['y'] then some ⟨some ['a', 'b', 'c'], []⟩ else none⟩

/-- Configuration querying only the year, at `y`. -/
def cfg5 : Config := ⟨some ['y'], none, none, none, none, none⟩

/-- C5 counterexample: when the matched year element's text is the
non-numeric, non-empty string "abc", the year field is NOT 0 — Python's
`int("abc")` raises an uncaught `ValueError`, so `decode` fails instead of
producing any record or state. -/
theorem numField_invalid_text_raises :
    numField (some ['y']) doc5 = .error () ∧
    numField (some ['y']) doc5 ≠ .ok 0 ∧
    (State.init cfg5).decode doc5 ['p'] = .error () := by
  refine ⟨rfl, ?_, rfl⟩
  intro h
  rw [show numField (some ['y']) doc5 = .error () from rfl] at h
  exact Except.noConfusion h

/-- C5 (amended): a numeric field is 0 when its query is unconfigured
(`None` or empty), when the query matches no element, or when the matched
element's text is absent or empty; valid non-empty numeric text yields its
value, and invalid non-empty text raises `ValueError` (extraction fails).
Title and summary default to absent, and tags to the empty set, when their
queries are unconfigured or match nothing. -/
theorem field_defaults :
    (∀ root : Doc, numField none root = .ok 0) ∧
    (∀ root : Doc, numField (some []) root = .ok 0) ∧
    (∀ (root : Doc) (q : List Char), q ≠ [] → root.find q = none →
      numField (some q) root = .ok 0) ∧
    (∀ (root : Doc) (q : List Char) (el : Elem), q ≠ [] →
      root.find q = some el → el.text = none → numField (some q) root = .ok 0) ∧
    (∀ (root : Doc) (q : List Char) (el : Elem), q ≠ [] →
      root.find q = some el → el.text = some [] →
      numField (some q) root = .ok 0) ∧
    (∀ (root : Doc) (q t : List Char) (el : Elem) (n : Int), q ≠ [] →
      root.find q = some el → el.text = some t → t ≠ [] → pyInt t = some n →
      numField (some q) root = .ok n) ∧
    (∀ (root : Doc) (q t : List Char) (el : Elem), q ≠ [] →
      root.find q = some el → el.text = some t → t ≠ [] → pyInt t = none →
      numField (some q) root = .error ()) ∧
    (∀ root : Doc, titleField none root = none) ∧
    (∀ (root : Doc) (q : List Char), q ≠ [] → root.find q = none →
      titleField (some q) root = none) ∧
    (∀ root : Doc, tagsField none root = []) ∧
    (∀ (root : Doc) (q : List Char), q ≠ [] → root.find q = none →
      tagsField (some q) root = []) ∧
    (∀ root : Doc, summaryField none root = none) ∧
    (∀ (root : Doc) (q : List Char), q ≠ [] → root.find q = none →
      summaryField (some q) root = none) := by
  refine ⟨fun root => rfl, fun root => rfl, ?_, ?_, ?_, ?_, ?_, fun root => rfl,
    ?_, fun root => rfl, ?_, fun root => rfl, ?_⟩
  · intro root q hq hfind
    simp [numField, findField, hq, hfind]
  · intro root q el hq hfind htext
    simp [numField, findField, hq, hfind, htext]
  · intro root q el hq hfind htext
    simp [numField, findField, hq, hfind, htext]
  · intro root q t el n hq hfind htext ht hint
    simp [numField, findField, hq, hfind, htext, ht, hint]
  · intro root q t el hq hfind htext ht hint
    simp [numField, findField, hq, hfind, htext, ht, hint]
  · intro root q hq hfind
    simp [titleField, findField, hq, hfind]
  · intro root q hq hfind
    simp [tagsField, findField, hq, hfind]
  · intro root q hq hfind
    simp [summaryField, findField, hq, hfind]

theorem field_defaults_witness :
    (numField (some ['z']) doc5 = .ok 0) ∧
    (numField (some ['y']) doc2 = .ok 2020) ∧
    (titleField (some ['z']) doc5 = none) ∧
    (tagsField (some ['z']) doc5 = []) :=
  ⟨field_defaults.2.2.1 doc5 ['z'] (by decide) rfl,
   field_defaults.2.2.2.2.2.1 doc2 ['y'] ['2','0','2','0']
     ⟨some ['2','0','2','0'], []⟩ 2020 (by decide) rfl rfl (by decide) (by decide),
   field_defaults.2.2.2.2.2.2.2.2.1 doc5 ['z'] (by decide) rfl,
   field_defaults.2.2.2.2.2.2.2.2.2.2.1 doc5 ['z'] (by decide) rfl⟩

/-! ### Claim C9: tags are accumulated before the retention check -/

/-- Inversion of a successful `State.decode`: the configuration is
unchanged and the cumulative tag set has been extended by the document's
tags — in both the retained and the discarded branch. -/
theorem decode_ok_inv (st : State) (root : Doc) (rp : List Char)
    (st' : State) (h : st.decode root rp = .ok st') :
    st'.cfg = st.cfg ∧
    st'.tags = pyUpdate st.tags (tagsField st.cfg.xptags root) := by
  cases hy : numField st.cfg.xpyear root with
  | error e => simp only [State.decode, hy] at h; exact Except.noConfusion h
  | ok year =>
  cases hm : numField st.cfg.xpmonth root with
  | error e => simp only [State.decode, hy, hm] at h; exact Except.noConfusion h
  | ok month =>
  cases hd : numField st.cfg.xpday root with
  | error e => simp only [State.decode, hy, hm, hd] at h; exact Except.noConfusion h
  | ok day =>
  simp only [State.decode, hy, hm, hd] at h
  by_cases hc : year = 0 ∨ month = 0 ∨ day = 0 ∨
      titleField st.cfg.xptitle root = none
  · rw [if_pos hc] at h
    cases h
    exact ⟨rfl, rfl⟩
  · rw [if_neg hc] at h
    cases h
    exact ⟨rfl, rfl⟩

/-- C9: a successful `State.decode` adds every whitespace-split tag of the
document to the run-wide cumulative tag set — the update happens before the
retention check, so the tags of a discarded record still appear in `_tags`
and in the sorted result of `tags()`. -/
theorem decode_tags_added_before_retention (st : State) (root : Doc)
    (rp : List Char) (st' : State) (h : st.decode root rp = .ok st')
    (x : List Char) (hx : x ∈ tagsField st.cfg.xptags root) :
    x ∈ st'.tags ∧ x ∈ st'.tagsSorted := by
  have htags := (decode_ok_inv st root rp st' h).2
  have hmem : x ∈ st'.tags := by
    rw [htags, mem_pyUpdate]
    exact Or.inr hx
  exact ⟨hmem, by unfold State.tagsSorted; rw [List.mem_insertionSort]; exact hmem⟩

/-- A document carrying tags "alpha beta" but no date fields: its record is
discarded while its tags survive. -/
def doc9 : Doc :=
  ⟨fun q =>
    if q = ['g'] then some ⟨some ['a','l','p','h','a',' ','b','e','t','a'], []⟩
    else none⟩

/-- Configuration querying only the tags, at `g`. -/
def cfg9 : Config := ⟨none, none, none, none, some ['g'], none⟩

/-- The state after decoding `doc9` from a fresh run: no record retained,
both tags accumulated. -/
def st9 : State :=
  ⟨cfg9, [], [['a','l','p','h','a'], ['b','e','t','a']]⟩

theorem decode_tags_added_before_retention_witness :
    st9.states = [] ∧
    (['a','l','p','h','a'] ∈ st9.tags ∧ ['a','l','p','h','a'] ∈ st9.tagsSorted) :=
  ⟨rfl, decode_tags_added_before_retention (State.init cfg9) doc9 ['p'] st9
    (by rfl) ['a','l','p','h','a'] (by decide)⟩

/-! ### Claim C6: tags are whitespace-split sets; `tags()` is their sorted union -/

theorem scanDocs_inv (docs : List (Doc × List Char)) :
    ∀ (st st' : State), scanDocs st docs = .ok st' →
    st'.cfg = st.cfg ∧
    (∀ x, x ∈ st'.tags ↔ x ∈ st.tags ∨
      ∃ d ∈ docs, x ∈ tagsField st.cfg.xptags d.1) ∧
    (st.tags.Nodup → st'.tags.Nodup) := by
  induction docs with
  | nil =>
    intro st st' h
    cases h
    simp
  | cons d rest ih =>
    intro st st' h
    obtain ⟨root, rp⟩ := d
    unfold scanDocs at h
    cases hdec : st.decode root rp with
    | error e => rw [hdec] at h; exact Except.noConfusion h
    | ok st1 =>
      rw [hdec] at h
      obtain ⟨hcfg1, htags1⟩ := decode_ok_inv st root rp st1 hdec
      obtain ⟨hcfg, hmem, hnodup⟩ := ih st1 st' h
      refine ⟨hcfg.trans hcfg1, fun x => ?_, fun hnd => ?_⟩
      · rw [hmem x, htags1, mem_pyUpdate, hcfg1]
        constructor
        · rintro ((hx | hx) | ⟨d, hd, hx⟩)
          · exact Or.inl hx
          · exact Or.inr ⟨(root, rp), List.mem_cons_self _ _, hx⟩
          · exact Or.inr ⟨d, List.mem_cons_of_mem _ hd, hx⟩
        · rintro (hx | ⟨d, hd, hx⟩)
          · exact Or.inl (Or.inl hx)
          · rcases List.mem_cons.mp hd with heq | hd'
            · subst heq
              exact Or.inl (Or.inr hx)
            · exact Or.inr ⟨d, hd', hx⟩
      · refine hnodup ?_
        rw [htags1]
        exact nodup_pyUpdate st.tags _ hnd

/-- C6: the tags of a document whose tags query matched an element with text
`t` are exactly the set of whitespace-split words of `t` (dup-free,
membership equal to membership in the split); and over a whole scan run,
`tags()` returns the dup-free, ascending-sorted list whose members are
exactly the tags seen across every decoded document. -/
theorem tags_split_and_sorted_union :
    (∀ (cfg : Config) (root : Doc) (el : Elem) (t : List Char),
      findField cfg.xptags root = some el → el.text = some t →
      tagsField cfg.xptags root = pySet (pySplit t) ∧
      (∀ x, x ∈ tagsField cfg.xptags root ↔ x ∈ pySplit t) ∧
      (tagsField cfg.xptags root).Nodup) ∧
    (∀ (cfg : Config) (docs : List (Doc × List Char)) (st' : State),
      scanDocs (State.init cfg) docs = .ok st' →
      List.Sorted (· ≤ ·) st'.tagsSorted ∧ st'.tagsSorted.Nodup ∧
      (∀ x, x ∈ st'.tagsSorted ↔ ∃ d ∈ docs, x ∈ tagsField cfg.xptags d.1)) := by
  constructor
  · intro cfg root el t hfind htext
    have heq : tagsField cfg.xptags root = pySet (pySplit t) := by
      by_cases ht : t = []
      · subst ht
        simp [tagsField, hfind, htext, pySet, pySplit, splitWSAux]
      · simp [tagsField, hfind, htext, ht]
    refine ⟨heq, fun x => ?_, ?_⟩
    · rw [heq, mem_pySet]
    · rw [heq]
      exact nodup_pyUpdate [] (pySplit t) List.nodup_nil
  · intro cfg docs st' h
    obtain ⟨hcfg, hmem, hnodup⟩ := scanDocs_inv docs (State.init cfg) st' h
    have hnd : st'.tags.Nodup := hnodup List.nodup_nil
    refine ⟨List.sorted_insertionSort _ st'.tags,
      ((List.perm_insertionSort _ st'.tags).nodup_iff).mpr hnd, fun x => ?_⟩
    unfold State.tagsSorted
    rw [List.mem_insertionSort, hmem x]
    simp [State.init]

theorem tags_split_and_sorted_union_witness :
    (tagsField cfg9.xptags doc9 =
        pySet (pySplit ['a','l','p','h','a',' ','b','e','t','a'])) ∧
    List.Sorted (· ≤ ·) st9.tagsSorted ∧ st9.tagsSorted.Nodup :=
  ⟨(tags_split_and_sorted_union.1 cfg9 doc9
      ⟨some ['a','l','p','h','a',' ','b','e','t','a'], []⟩
      ['a','l','p','h','a',' ','b','e','t','a'] rfl rfl).1,
   (tags_split_and_sorted_union.2 cfg9 [(doc9, ['p'])] st9 (by rfl)).1,
   (tags_split_and_sorted_union.2 cfg9 [(doc9, ['p'])] st9 (by rfl)).2.1⟩

/-! ### Claim C3: named "file:" sections in `Xml2HtmlApp.build_from_data`

Python source (lines 381-396):
```
sections = renderer.get_sections()
for s in sections:
    if not s.startswith("file:"):
        continue
    output = s[5:]
    if '/' in output or os.sep in output:
        continue # TODO error, should not define directory, only filename
    if self.checktimes(input, output):
        output = os.path.join(outdir, output)
        self.log("BUILD", input, output)
        with open(output, "wt") as handle:
            handle.write(renderer.get_section(s))
    else:
        self.log("NOCHG", input, output)
```
-/

/-- Model of `os.path.join(outdir, name)` for the names reaching it here
(a bare filename with no separator), on a POSIX platform (`os.sep = '/'`). -/
def pyJoin (outdir name : List Char) : List Char :=
  if outdir = [] then name
  else if outdir.getLast? = some '/' then outdir ++ name
  else outdir ++ '/' :: name

/-- The outcome of the section loop of `build_from_data` for one named
section.  There is no error outcome: the source raises nothing in this
loop (the path-separator branch is a silent `continue # TODO error`). -/
inductive SectionEvent where
  | skippedPrefix (name : List Char)
  | skippedSeparator (name : List Char)
  | wrote (path : List Char) (content : List Char)
  | nochg (name : List Char)
deriving DecidableEq

/-- Model of one iteration of the section loop.  `stale` is the timestamp
oracle `self.checktimes(input, ·)` — consulted, as in the source, on the
bare remainder before it is joined with the output directory; `content` is
`renderer.get_section(·)` keyed by the full section name. -/
def sectionEvent (outdir : List Char) (stale : List Char → Bool)
    (content : List Char → List Char) (s : List Char) : SectionEvent :=
  if s.take 5 ≠ ['f','i','l','e',':'] then .skippedPrefix s
  else
    let rem := s.drop 5
    if '/' ∈ rem then .skippedSeparator s
    else if stale rem then .wrote (pyJoin outdir rem) (content s)
    else .nochg s

/-- Model of the whole section loop over `renderer.get_sections()`. -/
def processSections (outdir : List Char) (stale : List Char → Bool)
    (content : List Char → List Char) (secs : List (List Char)) :
    List SectionEvent :=
  secs.map (sectionEvent outdir stale content)

/-- C3 (code evaluation): the section `"file:../escape.html"` is skipped
silently — no OutputError exists anywhere in the source and nothing is
raised or reported, contrary to the claim — while `"file:sidebar.html"` is
written alongside the primary output (`out/sidebar.html`). -/
theorem sections_silent_skip_eval :
    processSections ['o','u','t'] (fun _ => true) (fun _ => ['X'])
        [['f','i','l','e',':','.','.','/','e','s','c','a','p','e','.','h','t','m','l'],
         ['f','i','l','e',':','s','i','d','e','b','a','r','.','h','t','m','l']] =
      [.skippedSeparator
          ['f','i','l','e',':','.','.','/','e','s','c','a','p','e','.','h','t','m','l'],
       .wrote ['o','u','t','/','s','i','d','e','b','a','r','.','h','t','m','l'] ['X']] := by
  decide

/-! ### Claim C8: CLI `-D name=value` parameter parsing

Python source (`Xml2HtmlApp.init`, lines 323-333):
```
parts = param.split("=", 1)
if len(parts) == 2:
    name = parts[0].strip()
    value = parts[1].strip()
else:
    name = parts[0].strip()
    value = True
context[name] = value
```
-/

/-- A template-context value produced from a CLI parameter. -/
inductive ParamValue where
  | str (s : List Char)
  | boolVal (b : Bool)
deriving DecidableEq

/-- Model of the per-parameter parsing in `Xml2HtmlApp.init`:
`param.split("=", 1)` keeps everything before the first `'='` and
everything after it. -/
def parseParam (p : List Char) : List Char × ParamValue :=
  if '=' ∈ p then
    (pyStrip (p.takeWhile (· != '=')),
     .str (pyStrip (p.drop ((p.takeWhile (· != '=')).length + 1))))
  else (pyStrip p, .boolVal true)

theorem takeWhile_ne_append (pre post : List Char) (h : '=' ∉ pre) :
    (pre ++ '=' :: post).takeWhile (· != '=') = pre := by
  induction pre with
  | nil => simp [List.takeWhile]
  | cons c rest ih =>
    have hc : c ≠ '=' := fun hc => h (hc ▸ List.mem_cons_self c rest)
    have hrest : '=' ∉ rest := fun hm => h (List.mem_cons_of_mem c hm)
    simp [List.takeWhile_cons, hc, ih hrest]

/-- C8: a parameter containing `'='` maps the stripped part before the
first `'='` to the stripped part after it, as a string; a parameter with
no `'='` maps the whole stripped parameter to the boolean `True`. -/
theorem parseParam_spec :
    (∀ pre post : List Char, '=' ∉ pre →
      parseParam (pre ++ '=' :: post) =
        (pyStrip pre, .str (pyStrip post))) ∧
    (∀ p : List Char, '=' ∉ p →
      parseParam p = (pyStrip p, .boolVal true)) := by
  constructor
  · intro pre post h
    have hmem : '=' ∈ pre ++ '=' :: post :=
      List.mem_append_right pre (List.mem_cons_self '=' post)
    have htw := takeWhile_ne_append pre post h
    have hdrop : (pre ++ '=' :: post).drop (pre.length + 1) = post := by
      have hsplit : pre ++ '=' :: post = (pre ++ ['=']) ++ post := by simp
      have hlen : pre.length + 1 = (pre ++ ['=']).length := by simp
      rw [hsplit, hlen, List.drop_left]
    simp only [parseParam, if_pos hmem, htw, hdrop]
  · intro p h
    simp only [parseParam, if_neg h]

theorem parseParam_spec_witness :
    ('=' ∉ ['n','a','m','e',' '] ∧
      parseParam (['n','a','m','e',' '] ++ '=' :: [' ','v','a','l']) =
        (['n','a','m','e'], .str ['v','a','l'])) ∧
    ('=' ∉ ['f','l','a','g'] ∧
      parseParam ['f','l','a','g'] = (['f','l','a','g'], .boolVal true)) :=
  ⟨⟨by decide,
    (parseParam_spec.1 ['n','a','m','e',' '] [' ','v','a','l'] (by decide)).trans
      (by decide)⟩,
   ⟨by decide, (parseParam_spec.2 ['f','l','a','g'] (by decide)).trans (by decide)⟩⟩

/-! ### Claim C7: the Transducer (spec sections 4.1-4.3)

The transducer, rule registry and token resolver are code of this
repository that is not present under `src/`; the definitions below are
modelled from the specification's description of them. -/

/-- Modelled from the spec: a Markup Tree node — qualified tag, text, tail,
attributes and ordered children (spec section 3, "Node"). -/
inductive Node where
  | mk (tag : List Char) (text : List Char) (tail : List Char)
      (attrs : List (List Char × List Char)) (children : List Node)

def Node.tag : Node → List Char
  | .mk t _ _ _ _ => t

def Node.text : Node → List Char
  | .mk _ t _ _ _ => t

def Node.tail : Node → List Char
  | .mk _ _ t _ _ => t

def Node.children : Node → List Node
  | .mk _ _ _ _ c => c

/-- Modelled from the spec: a RuleEntry — optional pre/main/post template
identifiers, optional nested registry path, nesting scope token and
tri-state text-emission policy (spec section 3, "RuleEntry"). -/
structure RuleEntry where
  preTemplate : Option (List Char)
  template : Option (List Char)
  postTemplate : Option (List Char)
  nestedRegistry : Option (List Char)
  nestedPfx : List Char
  textEmit : Option Bool
deriving DecidableEq

/-- Modelled from the spec: a RuleRegistry — a mapping from match token to
RuleEntry plus a namespace-URI → alias table (spec section 3,
"RuleRegistry"). -/
structure Registry where
  rules : List (List Char × RuleEntry)
  aliases : List (List Char × List Char)

/-- Modelled from the spec: prefix normalization of the Token Resolver —
append the separator character if the inherited scope token is non-empty
and not already separator-terminated (spec section 4.1). -/
def normalizePfx (p : List Char) : List Char :=
  if p = [] then p
  else if p.getLast? = some '/' then p
  else p ++ ['/']

/-- The tag split used by the Token Resolver; the same brace splitting as
`XmlWrapper` (spec section 4.1), total on the nonempty tags of real nodes. -/
def splitTagTotal (tag : List Char) : List Char × List Char :=
  (tagSplit tag).getD ([], tag)

/-- Modelled from the spec: `resolve(node, inheritedPrefix, registry)` of
the Token Resolver (spec section 4.1): aliased namespaces give
`pfx ++ alias ++ ":" ++ localName`, unaliased ones the verbatim
`pfx ++ "{" ++ ns ++ "}" ++ localName`, empty namespace just
`pfx ++ localName`. -/
def resolve (node : Node) (pfx : List Char) (reg : Registry) : List Char :=
  let s := splitTagTotal node.tag
  let p := normalizePfx pfx
  if s.1 = [] then p ++ s.2
  else
    match reg.aliases.lookup s.1 with
    | some al => p ++ al ++ ':' :: s.2
    | none => p ++ '{' :: s.1 ++ '}' :: s.2

/-- Modelled from the spec: the external collaborators of the Transducer —
the Template Renderer (`render(templateId, context)`, the context carrying
the current node wrapper) and the memoized registry loader (spec sections
4.2 and 6). -/
structure Env where
  render : List Char → Node → List Char
  load : List Char → Registry

/-- Modelled from the spec: the per-run mutable state of the Transducer —
the Output Accumulator's ordered fragments and the text-emission stack
(spec sections 4.3 and 4.4). -/
structure TState where
  out : List (List Char)
  stack : List Bool
deriving DecidableEq

/-- The effective text-emission flag: top of the stack, over an implicit
bottom "suppress" frame (spec section 4.3). -/
def topEmit (stk : List Bool) : Bool := stk.headD false

/-- Append one fragment to the Output Accumulator. -/
def appendOut (ts : TState) (s : List Char) : TState :=
  { ts with out := ts.out ++ [s] }

mutual

/-- Modelled from the spec: `processNode(node, registry, prefix)` (spec
section 4.3).  Resolve the token; with no matching RuleEntry the node is
skipped entirely (no output, no recursion).  Otherwise: push a
text-emission frame if `textEmit` is set, render `preTemplate`, then either
render `template` (replacing recursion), or recurse into the children with
the nested registry or the same registry, then render `postTemplate`, then
pop the pushed frame.  `fuel` is a structural recursion bound. -/
def processNode (env : Env) (fuel : Nat) (node : Node) (reg : Registry)
    (pfx : List Char) (ts : TState) : TState :=
  match fuel with
  | 0 => ts
  | fuel' + 1 =>
    match reg.rules.lookup (resolve node pfx reg) with
    | none => ts
    | some entry =>
      let ts1 := match entry.textEmit with
        | some b => { ts with stack := b :: ts.stack }
        | none => ts
      let ts2 := match entry.preTemplate with
        | some tid => appendOut ts1 (env.render tid node)
        | none => ts1
      let ts3 := match entry.template with
        | some tid => appendOut ts2 (env.render tid node)
        | none =>
          match entry.nestedRegistry with
          | some path =>
            processChildren env fuel' node (env.load path) entry.nestedPfx ts2
          | none => processChildren env fuel' node reg entry.nestedPfx ts2
      let ts4 := match entry.postTemplate with
        | some tid => appendOut ts3 (env.render tid node)
        | none => ts3
      match entry.textEmit with
      | some _ => { ts4 with stack := ts4.stack.tail }
      | none => ts4

/-- Modelled from the spec: `processChildren(node, registry, prefix)` (spec
section 4.3): emit `node.text` if the current flag is emit, then process
each child in document order, emitting its tail under the then-current
flag. -/
def processChildren (env : Env) (fuel : Nat) (node : Node) (reg : Registry)
    (pfx : List Char) (ts : TState) : TState :=
  match fuel with
  | 0 => ts
  | fuel' + 1 =>
    let ts0 :=
      if topEmit ts.stack = true ∧ node.text ≠ [] then appendOut ts node.text
      else ts
    node.children.foldl
      (fun acc child =>
        let acc1 := processNode env fuel' child reg pfx acc
        if topEmit acc1.stack = true ∧ child.tail ≠ [] then
          appendOut acc1 child.tail
        else acc1)
      ts0

end

/-- C7: a node whose resolved token has no matching RuleEntry contributes
nothing — `processNode` returns the state unchanged (no output appended, no
recursion into the children), whatever the children are, even ones whose
own tokens would match. -/
theorem processNode_unmatched (env : Env) (fuel : Nat) (node : Node)
    (reg : Registry) (pfx : List Char) (ts : TState)
    (h : reg.rules.lookup (resolve node pfx reg) = none) :
    processNode env fuel node reg pfx ts = ts := by
  cases fuel with
  | zero => rfl
  | succ n => simp only [processNode, h]

/-- A registry matching only the token `child`. -/
def reg7 : Registry :=
  ⟨[(['c','h','i','l','d'],
     ⟨none, some ['T'], none, none, [], none⟩)], []⟩

/-- A child node whose token `child` matches `reg7`. -/
def child7 : Node := .mk ['c','h','i','l','d'] [] [] [] []

/-- A parent node whose token `parent` does not match `reg7`, with a
matching child underneath. -/
def node7 : Node := .mk ['p','a','r','e','n','t'] ['x'] [] [] [child7]

/-- A concrete renderer/loader environment. -/
def env7 : Env := ⟨fun _ _ => ['R'], fun _ => ⟨[], []⟩⟩

theorem processNode_unmatched_witness :
    reg7.rules.lookup (resolve node7 [] reg7) = none ∧
    processNode env7 3 node7 reg7 [] ⟨[], []⟩ = ⟨[], []⟩ ∧
    processNode env7 3 child7 reg7 [] ⟨[], []⟩ = ⟨[['R']], []⟩ :=
  ⟨by decide,
   processNode_unmatched env7 3 node7 reg7 [] ⟨[], []⟩ (by decide),
   by decide⟩

end Xml2Html
